import Mathlib

/-!
Verification of the terminal-to-chat bridge (`telegram_bridge.py`).

Shallow embedding conventions:
* a Python `str` is a `List Char` (a sequence of Unicode code points);
* a Python `bytes` is a `List Nat` (each element a byte value `< 256`);
* module-level mutable globals become explicit state records;
* side effects (Telegram replies, pty writes, process spawns) become an
  explicit list of `Effect` values returned by each modelled handler;
* the asyncio debounce timer becomes an explicit optional deadline in the
  aggregator state, driven by a discrete-event runner over timed arrivals.
-/

namespace Bridge

/-! ### Configuration constants (telegram_bridge.py lines 15-33) -/

def ALLOWED_USER_ID : Nat := 5143179617

def MAX_MESSAGE_CHARS : Nat := 3500

/-- Bytes of `QUERY_CURSOR`, the cursor-position device query `ESC [ 6 n`. -/
def QUERY_CURSOR : List Nat := [0x1B, 0x5B, 0x36, 0x6E]

/-- Bytes of `ANSWER_CURSOR`, the canned cursor-position reply `ESC [ 1 ; 1 R`. -/
def ANSWER_CURSOR : List Nat := [0x1B, 0x5B, 0x31, 0x3B, 0x31, 0x52]

/-! ### EscapeFilter: the regex `ANSI_ESCAPE` (line 29) and
`ANSI_ESCAPE.sub` with the empty replacement (line 96).

The regex is an `ESC` (`0x1B`) followed by one of two alternatives.  The
first alternative is a single character from the class `0x40-0x5A` union
`0x5C-0x5F` (note `[` = `0x5B` is excluded; it is handled by the second
alternative).  The second (CSI) alternative is `[` followed by zero or
more parameter bytes `0x30-0x3F`, zero or more intermediate bytes
`0x20-0x2F`, and one final byte `0x40-0x7E`.  The three CSI classes are
pairwise disjoint, so the greedy quantifiers never need to backtrack, and
the two alternatives are disjoint on their first character, so Python's
ordered alternation is equivalent to the case split below. -/

def isFeFinal (c : Char) : Bool :=
  (0x40 ≤ c.toNat && c.toNat ≤ 0x5A) || (0x5C ≤ c.toNat && c.toNat ≤ 0x5F)

def isCsiParam (c : Char) : Bool := 0x30 ≤ c.toNat && c.toNat ≤ 0x3F

def isCsiInter (c : Char) : Bool := 0x20 ≤ c.toNat && c.toNat ≤ 0x2F

def isCsiFinal (c : Char) : Bool := 0x40 ≤ c.toNat && c.toNat ≤ 0x7E

/-- Length of `dropWhile` never exceeds the input's length. -/
theorem dropWhile_len_le (p : Char → Bool) :
    ∀ l : List Char, (l.dropWhile p).length ≤ l.length
  | [] => by simp [List.dropWhile]
  | c :: rest => by
    simp only [List.dropWhile]
    by_cases h : p c = true
    · simp only [h]
      have := dropWhile_len_le p rest
      simp
      omega
    · simp [h]

/-- Match the CSI tail (params, then intermediates, then one final byte)
against `l`; on success return the suffix of `l` after the match. -/
def csiMatch (l : List Char) : Option (List Char) :=
  match (l.dropWhile isCsiParam).dropWhile isCsiInter with
  | c :: rest => if isCsiFinal c then some rest else none
  | [] => none

/-- Match the part of the regex after the `ESC` against `l`; on success
return the suffix after the match. -/
def escMatch : List Char → Option (List Char)
  | [] => none
  | c :: rest =>
    if isFeFinal c then some rest
    else if c = '[' then csiMatch rest
    else none

theorem csiMatch_length {l out : List Char} (h : csiMatch l = some out) :
    out.length < l.length := by
  unfold csiMatch at h
  have h1 : ((l.dropWhile isCsiParam).dropWhile isCsiInter).length ≤ l.length :=
    le_trans (dropWhile_len_le _ _) (dropWhile_len_le _ _)
  cases h2 : (l.dropWhile isCsiParam).dropWhile isCsiInter with
  | nil => rw [h2] at h; simp at h
  | cons c rest =>
    rw [h2] at h
    by_cases hf : isCsiFinal c = true
    · simp [hf] at h
      subst h
      rw [h2] at h1
      simp at h1
      omega
    · simp [hf] at h

theorem escMatch_length {l out : List Char} (h : escMatch l = some out) :
    out.length < l.length := by
  cases l with
  | nil => simp [escMatch] at h
  | cons c rest =>
    simp only [escMatch] at h
    by_cases hf : isFeFinal c = true
    · simp [hf] at h
      subst h
      simp
    · simp [hf] at h
      by_cases hb : c = '['
      · simp [hb] at h
        have := csiMatch_length h
        simp
        omega
      · simp [hb] at h

/-- Worker for `ansiStrip`.  The fuel argument only makes the recursion
structural: every step consumes at least one character, so any fuel of at
least the input's length gives the same result (`ansiStripGo_congr`), and
the fuel-exhausted branch is unreachable. -/
def ansiStripGo : Nat → List Char → List Char
  | _, [] => []
  | 0, l => l
  | fuel + 1, c :: rest =>
    if c = Char.ofNat 27 then
      match escMatch rest with
      | some rest2 => ansiStripGo fuel rest2
      | none => c :: ansiStripGo fuel rest
    else c :: ansiStripGo fuel rest

/-- Model of `ANSI_ESCAPE.sub` with empty replacement: delete every non-overlapping, leftmost
match of the escape regex, scanning left to right. -/
def ansiStrip (l : List Char) : List Char := ansiStripGo l.length l

theorem ansiStripGo_congr :
    ∀ fuel fuel2 : Nat, ∀ l : List Char, l.length ≤ fuel → l.length ≤ fuel2 →
      ansiStripGo fuel l = ansiStripGo fuel2 l := by
  intro fuel
  induction fuel with
  | zero =>
    intro fuel2 l h1 h2
    have : l = [] := List.length_eq_zero.mp (Nat.le_zero.mp h1)
    subst this
    cases fuel2 <;> simp [ansiStripGo]
  | succ fuel ih =>
    intro fuel2 l h1 h2
    cases l with
    | nil => cases fuel2 <;> simp [ansiStripGo]
    | cons c rest =>
      cases fuel2 with
      | zero => simp at h2
      | succ fuel2 =>
        simp only [ansiStripGo]
        simp only [List.length_cons] at h1 h2
        by_cases he : c = Char.ofNat 27
        · simp only [he, if_pos rfl]
          cases hm : escMatch rest with
          | some rest2 =>
            have hlen := escMatch_length hm
            exact ih fuel2 rest2 (by omega) (by omega)
          | none =>
            rw [ih fuel2 rest (by omega) (by omega)]
        · simp only [if_neg he]
          rw [ih fuel2 rest (by omega) (by omega)]

/-- The recurrence `ansiStrip` satisfies: the one-step behaviour of
`ANSI_ESCAPE.sub` at the head of the text. -/
theorem ansiStrip_cons (c : Char) (rest : List Char) :
    ansiStrip (c :: rest) =
      if c = Char.ofNat 27 then
        match escMatch rest with
        | some rest2 => ansiStrip rest2
        | none => c :: ansiStrip rest
      else c :: ansiStrip rest := by
  show ansiStripGo (rest.length + 1) (c :: rest) = _
  simp only [ansiStripGo]
  by_cases he : c = Char.ofNat 27
  · simp only [he, if_pos rfl]
    cases hm : escMatch rest with
    | some rest2 =>
      have hlen := escMatch_length hm
      exact ansiStripGo_congr _ _ _ (by omega) le_rfl
    | none => simp [ansiStrip]
  · simp only [if_neg he]
    simp [ansiStrip]

/-! ### MessageChunker: `chunk_text` (lines 45-47).

`for i in range(0, len(text), size): yield text[i:i+size]` — successive
`size`-wide slices.  Python's `range` raises `ValueError` on step 0; the
`size = 0` guard below is never reached for the `size > 0` inputs the
program uses (`MAX_MESSAGE_CHARS`). -/

/-- Worker for `chunk_text`.  The fuel argument only makes the recursion
structural: every step drops at least one character, so any fuel of at
least the input's length gives the same result (`chunkGo_congr`).  A zero
`size` (for which Python's `range` would raise `ValueError`) yields no
chunks; the program only calls the chunker with `MAX_MESSAGE_CHARS`. -/
def chunkGo : Nat → List Char → Nat → List (List Char)
  | _, [], _ => []
  | _, _ :: _, 0 => []
  | 0, _ :: _, _ + 1 => []
  | fuel + 1, c :: rest, size + 1 =>
    (c :: rest).take (size + 1) :: chunkGo fuel ((c :: rest).drop (size + 1)) (size + 1)

def chunk_text (text : List Char) (size : Nat) : List (List Char) :=
  chunkGo text.length text size

theorem chunkGo_congr :
    ∀ fuel fuel2 : Nat, ∀ (text : List Char) (size : Nat),
      text.length ≤ fuel → text.length ≤ fuel2 →
      chunkGo fuel text size = chunkGo fuel2 text size := by
  intro fuel
  induction fuel with
  | zero =>
    intro fuel2 text size h1 h2
    have : text = [] := List.length_eq_zero.mp (Nat.le_zero.mp h1)
    subst this
    cases fuel2 <;> simp [chunkGo]
  | succ fuel ih =>
    intro fuel2 text size h1 h2
    cases text with
    | nil => cases fuel2 <;> simp [chunkGo]
    | cons c rest =>
      cases fuel2 with
      | zero => simp at h2
      | succ fuel2 =>
        cases size with
        | zero => simp [chunkGo]
        | succ size =>
          simp only [chunkGo]
          simp only [List.length_cons] at h1 h2
          rw [ih fuel2 ((c :: rest).drop (size + 1)) (size + 1)
            (by simp only [List.length_drop, List.length_cons]; omega)
            (by simp only [List.length_drop, List.length_cons]; omega)]

/-- The recurrence `chunk_text` satisfies for a non-empty text and a
positive size: the head chunk is the first `size` characters and the
tail chunks are the chunks of the rest. -/
theorem chunk_text_cons {text : List Char} {size : Nat}
    (h1 : text ≠ []) (h2 : 0 < size) :
    chunk_text text size = text.take size :: chunk_text (text.drop size) size := by
  cases text with
  | nil => exact absurd rfl h1
  | cons c rest =>
    cases size with
    | zero => omega
    | succ size =>
      show chunkGo (rest.length + 1) (c :: rest) (size + 1) = _
      simp only [chunkGo]
      rw [chunkGo_congr rest.length ((c :: rest).drop (size + 1)).length
        ((c :: rest).drop (size + 1)) (size + 1)
        (by simp only [List.length_drop, List.length_cons]; omega) le_rfl]
      rfl

theorem chunk_text_nil (size : Nat) : chunk_text [] size = [] := rfl

/-! ### Decoding: `data.decode('utf-8', errors='replace')` (line 93).

Standard UTF-8 decoding; every maximal subpart of an ill-formed sequence
(at least one byte) is replaced by one `U+FFFD` replacement character, as
CPython's `replace` error handler does.  The second-byte constraints on
`0xE0/0xED/0xF0/0xF4` starts exclude overlong forms, surrogates and code
points above `0x10FFFF`. -/

/-- Worker for `decodeUtf8Replace`.  The fuel argument only makes the
recursion structural: every step consumes at least one byte, so any fuel
of at least the input's length gives the same result. -/
def decodeGo : Nat → List Nat → List Char
  | _, [] => []
  | 0, _ => []
  | fuel + 1, b :: rest =>
    if b ≤ 0x7F then Char.ofNat b :: decodeGo fuel rest
    else if 0xC2 ≤ b && b ≤ 0xDF then
      match rest with
      | b2 :: r2 =>
        if 0x80 ≤ b2 && b2 ≤ 0xBF then
          Char.ofNat ((b - 0xC0) * 0x40 + (b2 - 0x80)) :: decodeGo fuel r2
        else Char.ofNat 0xFFFD :: decodeGo fuel rest
      | [] => [Char.ofNat 0xFFFD]
    else if 0xE0 ≤ b && b ≤ 0xEF then
      match rest with
      | b2 :: r2 =>
        if (if b = 0xE0 then 0xA0 else 0x80) ≤ b2 &&
            b2 ≤ (if b = 0xED then 0x9F else 0xBF) then
          match r2 with
          | b3 :: r3 =>
            if 0x80 ≤ b3 && b3 ≤ 0xBF then
              Char.ofNat ((b - 0xE0) * 0x1000 + (b2 - 0x80) * 0x40 + (b3 - 0x80)) ::
                decodeGo fuel r3
            else Char.ofNat 0xFFFD :: decodeGo fuel r2
          | [] => [Char.ofNat 0xFFFD]
        else Char.ofNat 0xFFFD :: decodeGo fuel rest
      | [] => [Char.ofNat 0xFFFD]
    else if 0xF0 ≤ b && b ≤ 0xF4 then
      match rest with
      | b2 :: r2 =>
        if (if b = 0xF0 then 0x90 else 0x80) ≤ b2 &&
            b2 ≤ (if b = 0xF4 then 0x8F else 0xBF) then
          match r2 with
          | b3 :: r3 =>
            if 0x80 ≤ b3 && b3 ≤ 0xBF then
              match r3 with
              | b4 :: r4 =>
                if 0x80 ≤ b4 && b4 ≤ 0xBF then
                  Char.ofNat ((b - 0xF0) * 0x40000 + (b2 - 0x80) * 0x1000 +
                      (b3 - 0x80) * 0x40 + (b4 - 0x80)) :: decodeGo fuel r4
                else Char.ofNat 0xFFFD :: decodeGo fuel r3
              | [] => [Char.ofNat 0xFFFD]
            else Char.ofNat 0xFFFD :: decodeGo fuel r2
          | [] => [Char.ofNat 0xFFFD]
        else Char.ofNat 0xFFFD :: decodeGo fuel rest
      | [] => [Char.ofNat 0xFFFD]
    else Char.ofNat 0xFFFD :: decodeGo fuel rest

def decodeUtf8Replace (l : List Nat) : List Char := decodeGo l.length l

/-! ### Device-query interception (lines 89-91).

`data.replace(QUERY_CURSOR, b'')` deletes every non-overlapping
occurrence of the four query bytes, scanning left to right (the pattern
has no border, so overlapping occurrences cannot exist). -/

def stripQuery : List Nat → List Nat
  | 27 :: 91 :: 54 :: 110 :: rest => stripQuery rest
  | b :: rest => b :: stripQuery rest
  | [] => []

/-- The number of occurrences `data.replace` deletes (left-to-right,
non-overlapping). -/
def countQuery : List Nat → Nat
  | 27 :: 91 :: 54 :: 110 :: rest => countQuery rest + 1
  | _ :: rest => countQuery rest
  | [] => 0

/-! ### Python `str.strip()` (line 55): drop leading and trailing
Unicode whitespace.  The set below is the set of code points for which
CPython's `str.isspace` holds. -/

def isPySpace (c : Char) : Bool :=
  c.toNat ∈ [0x09, 0x0A, 0x0B, 0x0C, 0x0D, 0x1C, 0x1D, 0x1E, 0x1F, 0x20,
    0x85, 0xA0, 0x1680, 0x2000, 0x2001, 0x2002, 0x2003, 0x2004, 0x2005,
    0x2006, 0x2007, 0x2008, 0x2009, 0x200A, 0x2028, 0x2029, 0x202F,
    0x205F, 0x3000]

def pyStrip (l : List Char) : List Char :=
  ((l.dropWhile isPySpace).reverse.dropWhile isPySpace).reverse

/-! ### Observable effects of the handlers. -/

inductive Effect where
  /-- Call of `update.message.reply_text(msg)` with a fixed text. -/
  | reply (msg : String)
  /-- Reply reporting a caught `OSError` as a visible failure message. -/
  | replyError
  /-- Call of `start_codex_process`: pty allocation plus child spawn. -/
  | spawn
  /-- Write of raw bytes to the pty master inside the pty reader. -/
  | writeMaster (bs : List Nat)
  /-- Write of an inbound chat message plus newline to the pty master. -/
  | writePty (cs : List Char)
  /-- Call of `bot.send_message` with Markdown parse mode. -/
  | send (text : List Char)
  deriving DecidableEq, Repr

/-! ### MessageChunker rendering and `flush_output` (lines 49-64).

`flush_output` swaps the buffer out under `buffer_lock` (the model is
sequential, so the swap is the atomic first component of the result),
strips the text, and if non-empty sends each chunk fenced in triple
backticks.  The result is `(new buffer contents, sent messages)`. -/

def renderChunk (c : List Char) : List Char :=
  "```\n".data ++ c ++ "\n```".data

def flush_output (buffer : List Char) : List Char × List Effect :=
  let text := pyStrip buffer
  if text = [] then ([], [])
  else ([], (chunk_text text MAX_MESSAGE_CHARS).map (fun c => Effect.send (renderChunk c)))

/-! ### The pty reader `read_from_pty` (lines 82-104).

The reader's state is the module-level globals it touches: `master_fd`,
`output_buffer`, and the pending debounce deadline held by `flush_task`
(modelled as the absolute time at which the armed timer will fire, or
`none`).  A single invocation observes either a chunk of bytes, an empty
read (EOF), or an `OSError`. -/

structure ReadState where
  master_fd : Option Nat
  output_buffer : List Char
  deadline : Option Nat
  deriving DecidableEq, Repr

inductive ReadResult where
  | data (bs : List Nat)
  | eof
  | oserror
  deriving DecidableEq, Repr

/-- Model of `QUERY_CURSOR in data`: the bytes `ESC [ 6 n` occur as a contiguous
subsequence of the chunk (substring scan). -/
def containsQuery : List Nat → Bool
  | 27 :: 91 :: 54 :: 110 :: _ => true
  | _ :: rest => containsQuery rest
  | [] => false

/-- The chunk after the device-query interception of lines 89-91. -/
def queryFiltered (bs : List Nat) : List Nat :=
  if containsQuery bs then stripQuery bs else bs

/-- One invocation of `read_from_pty` at time `now`, with debounce
interval `d`: intercept the device query, decode, strip escapes, and if
the remaining text is non-empty append it to the buffer and (re)arm the
flush timer (`schedule_flush`, lines 66-80, cancels any pending timer and
arms a new one `d` after `now`). -/
def read_from_pty (d : Nat) (st : ReadState) (now : Nat) (r : ReadResult) :
    ReadState × List Effect :=
  match r with
  | .eof => (st, [])
  | .oserror => (st, [])
  | .data bs =>
    let ws := if containsQuery bs then [Effect.writeMaster ANSWER_CURSOR] else []
    let clean := ansiStrip (decodeUtf8Replace (queryFiltered bs))
    if clean = [] then (st, ws)
    else ({ st with output_buffer := st.output_buffer ++ clean,
                    deadline := some (now + d) }, ws)

/-! ### Discrete-event semantics of the debounce (lines 66-80, 98-102).

`debStep` processes one fragment arrival at time `t`: if an armed timer's
deadline has already passed, that timer fired first — `flush_output`
swapped the buffer out (recorded as a flush event carrying the swapped
buffer) — and the arrival starts a fresh buffer; otherwise the arrival
appends to the buffer and the pending timer is cancelled.  Either way a
new timer is armed for `t + d`.  `debounceFlushes` runs a whole arrival
sequence from the idle initial state and lets the final timer fire. -/

structure AggState where
  output_buffer : List Char
  deadline : Option Nat
  deriving DecidableEq, Repr

def debStep (d : Nat) (st : AggState) (t : Nat) (frag : List Char) :
    AggState × List (Nat × List Char) :=
  match st.deadline with
  | some dl =>
    if dl ≤ t then (⟨frag, some (t + d)⟩, [(dl, st.output_buffer)])
    else (⟨st.output_buffer ++ frag, some (t + d)⟩, [])
  | none => (⟨st.output_buffer ++ frag, some (t + d)⟩, [])

def debRun (d : Nat) (st : AggState) : List (Nat × List Char) → List (Nat × List Char) × AggState
  | [] => ([], st)
  | (t, f) :: rest =>
    let p := debStep d st t f
    let q := debRun d p.1 rest
    (p.2 ++ q.1, q.2)

/-- Let a still-armed final timer fire. -/
def debFinish (p : List (Nat × List Char) × AggState) : List (Nat × List Char) :=
  match p.2.deadline with
  | some dl => p.1 ++ [(dl, p.2.output_buffer)]
  | none => p.1

/-- All flush events (fire time, swapped-out buffer) produced by a timed
arrival sequence starting from the idle state. -/
def debounceFlushes (d : Nat) (arrivals : List (Nat × List Char)) : List (Nat × List Char) :=
  debFinish (debRun d ⟨[], none⟩ arrivals)

/-- Strict upper bounds on inter-arrival gaps: every time in `rest` is
less than `d` after its predecessor (the predecessor of the head is `t`). -/
def denseAfter (d t : Nat) : List (Nat × List Char) → Bool
  | [] => true
  | (t2, _) :: rest => (decide (t2 < t + d)) && denseAfter d t2 rest

/-- Every consecutive inter-arrival gap is below the debounce interval. -/
def gapsLt (d : Nat) : List (Nat × List Char) → Bool
  | [] => true
  | (t, _) :: rest => denseAfter d t rest

/-- Every time in `rest` is at least `d` after its predecessor. -/
def sparseAfter (d t : Nat) : List (Nat × List Char) → Bool
  | [] => true
  | (t2, _) :: rest => (decide (t + d ≤ t2)) && sparseAfter d t2 rest

/-- Every consecutive inter-arrival gap is at least the debounce interval. -/
def gapsGe (d : Nat) : List (Nat × List Char) → Bool
  | [] => true
  | (t, _) :: rest => sparseAfter d t rest

/-- The time of the last arrival (`0` for the empty sequence). -/
def lastTime (arrivals : List (Nat × List Char)) : Nat :=
  arrivals.foldl (fun _ p => p.1) 0

/-! ### BridgeController: `handle_message` (lines 135-151).

State is the globals the handler touches: `master_fd` and the child
process handle.  `processAlive = none` models `process is None`;
`some true` a running child (`poll()` returns `None`); `some false` an
exited child.  `next_fd` supplies the fresh descriptor a new
`pty.openpty()` would return.  `writeOk` tells whether `os.write` of the
inbound text succeeds or raises `OSError` (a dead descriptor). -/

structure BridgeState where
  master_fd : Option Nat
  processAlive : Option Bool
  next_fd : Nat
  deriving DecidableEq, Repr

/-- The restart condition `master_fd is None or (process and process.poll() is not None)`. -/
def needRestart (st : BridgeState) : Bool :=
  st.master_fd.isNone ||
    (match st.processAlive with
     | some alive => !alive
     | none => false)

/-- The state after `start_codex_process`: a fresh master descriptor and
a freshly spawned, running child. -/
def spawnState (st : BridgeState) : BridgeState :=
  ⟨some st.next_fd, some true, st.next_fd + 1⟩

/-- One invocation of `handle_message` for a message with the given
sender id and text. -/
def handle_message (st : BridgeState) (user_id : Nat) (text : List Char)
    (writeOk : Bool) : BridgeState × List Effect :=
  if user_id ≠ ALLOWED_USER_ID then (st, [])
  else
    let p :=
      if needRestart st then
        (spawnState st, [Effect.reply "⚙️ Starting Codex...", Effect.spawn])
      else (st, [])
    if p.1.master_fd.isSome then
      if writeOk then (p.1, p.2 ++ [Effect.writePty (text ++ [Char.ofNat 10])])
      else (p.1, p.2 ++ [Effect.replyError])
    else (p.1, p.2)

/-! ## Helper lemmas -/

/-- Concatenating the chunks reconstructs the text exactly. -/
theorem chunk_flatten (size : Nat) (hs : 0 < size) (text : List Char) :
    (chunk_text text size).flatten = text := by
  by_cases h1 : text = []
  · subst h1
    rfl
  · rw [chunk_text_cons h1 hs, List.flatten_cons,
      chunk_flatten size hs (text.drop size), List.take_append_drop]
termination_by text.length
decreasing_by
  have : 0 < text.length := List.length_pos.mpr h1
  simp only [List.length_drop]
  omega

/-- Chunking with size zero yields no chunks (Python would instead raise `ValueError`). -/
theorem chunk_text_size_zero (text : List Char) : chunk_text text 0 = [] := by
  cases text with
  | nil => rfl
  | cons c rest => rfl

/-- Every chunk has length at most `size`. -/
theorem chunk_length_le (size : Nat) (text : List Char) :
    ∀ c ∈ chunk_text text size, c.length ≤ size := by
  by_cases h1 : text = []
  · subst h1
    intro c hc
    rw [chunk_text_nil] at hc
    exact absurd hc (List.not_mem_nil c)
  · by_cases h2 : size = 0
    · subst h2
      intro c hc
      rw [chunk_text_size_zero] at hc
      exact absurd hc (List.not_mem_nil c)
    · rw [chunk_text_cons h1 (Nat.pos_of_ne_zero h2)]
      intro c hc
      rcases List.mem_cons.mp hc with rfl | hc2
      · rw [List.length_take]
        exact inf_le_left
      · exact chunk_length_le size (text.drop size) c hc2
termination_by text.length
decreasing_by
  have : 0 < text.length := List.length_pos.mpr h1
  simp only [List.length_drop]
  omega

theorem replicate_ne_nil {n : Nat} (hn : n ≠ 0) (a : Char) :
    List.replicate n a ≠ [] := by
  apply List.length_pos.mp
  rw [List.length_replicate]
  omega

/-- The concrete end-to-end chunking scenario: a 10000-character text at
maximum size 3500 yields exactly the chunk lengths 3500, 3500, 3000. -/
theorem chunk_replicate_10000 :
    (chunk_text (List.replicate 10000 'a') 3500).map List.length =
      [3500, 3500, 3000] := by
  rw [chunk_text_cons (replicate_ne_nil (by norm_num) 'a') (by norm_num),
    List.drop_replicate, List.take_replicate]
  norm_num
  rw [chunk_text_cons (replicate_ne_nil (by norm_num) 'a') (by norm_num),
    List.drop_replicate, List.take_replicate]
  norm_num
  rw [chunk_text_cons (replicate_ne_nil (by norm_num) 'a') (by norm_num),
    List.drop_replicate, List.take_replicate]
  norm_num
  exact chunk_text_nil 3500

/-! ## Claims -/

/-- C2: for every text `x` and maximum size `m > 0` the chunker yields
contiguous, non-overlapping, in-order segments: every chunk has length at
most `m` and the concatenation of all chunks is `x` exactly; and the
10000-character input at maximum size 3500 yields exactly three chunks of
lengths 3500, 3500 and 3000. -/
theorem chunker_exact_cover (x : List Char) (m : Nat) (hm : 0 < m) :
    (∀ c ∈ chunk_text x m, c.length ≤ m) ∧
    (chunk_text x m).flatten = x ∧
    (chunk_text (List.replicate 10000 'a') 3500).map List.length =
      [3500, 3500, 3000] :=
  ⟨chunk_length_le m x, chunk_flatten m hm x, chunk_replicate_10000⟩

theorem chunker_exact_cover_witness :
    0 < 2 ∧
    ((∀ c ∈ chunk_text ['a', 'b', 'c'] 2, c.length ≤ 2) ∧
     (chunk_text ['a', 'b', 'c'] 2).flatten = ['a', 'b', 'c'] ∧
     (chunk_text (List.replicate 10000 'a') 3500).map List.length =
       [3500, 3500, 3000]) :=
  ⟨by decide, chunker_exact_cover ['a', 'b', 'c'] 2 (by decide)⟩

/-- Texts without the escape introducer are fixed points of the stripper:
every match of the regex starts with `ESC`. -/
theorem ansiStrip_of_not_mem_esc :
    ∀ l : List Char, Char.ofNat 27 ∉ l → ansiStrip l = l := by
  intro l
  induction l with
  | nil => intro _; rfl
  | cons c rest ih =>
    intro hmem
    rw [List.mem_cons, not_or] at hmem
    obtain ⟨hc, hrest⟩ := hmem
    rw [ansiStrip_cons, if_neg (fun h => hc h.symm), ih hrest]

/-- C3 counterexample: the escape stripper is not idempotent.  On the
text `ESC ESC [ 0 m A`, one pass removes only the complete `ESC [ 0 m`
sequence, leaving `ESC A`, and a second pass removes `ESC A` as a
two-character escape — so a second application changes the result. -/
theorem stripper_not_idempotent :
    ansiStrip (ansiStrip [Char.ofNat 27, Char.ofNat 27, '[', '0', 'm', 'A']) ≠
      ansiStrip [Char.ofNat 27, Char.ofNat 27, '[', '0', 'm', 'A'] := by
  decide

/-- C3 (amended): the stripper is idempotent on every text whose
single-pass result contains no leftover `ESC` character; in general a
removal can bring a stray `ESC` next to following text, forming a fresh
match that only a second pass would remove, so idempotence can fail. -/
theorem stripper_idempotent_of_no_esc (x : List Char)
    (h : Char.ofNat 27 ∉ ansiStrip x) :
    ansiStrip (ansiStrip x) = ansiStrip x :=
  ansiStrip_of_not_mem_esc (ansiStrip x) h

theorem stripper_idempotent_of_no_esc_witness :
    Char.ofNat 27 ∉ ansiStrip ['A', Char.ofNat 27, '[', '0', 'm', 'B'] ∧
    ansiStrip (ansiStrip ['A', Char.ofNat 27, '[', '0', 'm', 'B']) =
      ansiStrip ['A', Char.ofNat 27, '[', '0', 'm', 'B'] :=
  ⟨by decide, stripper_idempotent_of_no_esc ['A', Char.ofNat 27, '[', '0', 'm', 'B'] (by decide)⟩

/-! ## Debounce lemmas -/

theorem debStep_none (d t : Nat) (frag b : List Char) :
    debStep d ⟨b, none⟩ t frag = (⟨b ++ frag, some (t + d)⟩, []) := rfl

theorem debStep_armed_lt (d t dl : Nat) (frag b : List Char) (h : ¬ dl ≤ t) :
    debStep d ⟨b, some dl⟩ t frag = (⟨b ++ frag, some (t + d)⟩, []) := by
  simp [debStep, h]

theorem debStep_armed_le (d t dl : Nat) (frag b : List Char) (h : dl ≤ t) :
    debStep d ⟨b, some dl⟩ t frag = (⟨frag, some (t + d)⟩, [(dl, b)]) := by
  simp [debStep, h]

theorem debRun_nil (d : Nat) (st : AggState) : debRun d st [] = ([], st) := rfl

theorem debRun_cons (d : Nat) (st : AggState) (t : Nat) (f : List Char)
    (rest : List (Nat × List Char)) :
    debRun d st ((t, f) :: rest) =
      ((debStep d st t f).2 ++ (debRun d (debStep d st t f).1 rest).1,
        (debRun d (debStep d st t f).1 rest).2) := rfl

theorem debFinish_cons (e : Nat × List Char)
    (q : List (Nat × List Char) × AggState) :
    debFinish (e :: q.1, q.2) = e :: debFinish q := by
  unfold debFinish
  cases q.2.deadline <;> simp

/-- While every gap stays below the debounce interval, no timer ever
fires before the next arrival: the run emits no flush, the buffer keeps
accumulating the fragments in order, and the armed deadline follows the
last arrival. -/
theorem debRun_dense (d : Nat) :
    ∀ (rest : List (Nat × List Char)) (t : Nat) (b : List Char),
      denseAfter d t rest = true →
      debRun d ⟨b, some (t + d)⟩ rest =
        ([], ⟨b ++ (rest.map Prod.snd).flatten,
          some (rest.foldl (fun _ p => p.1) t + d)⟩) := by
  intro rest
  induction rest with
  | nil =>
    intro t b _
    simp [debRun_nil]
  | cons p rest ih =>
    obtain ⟨t2, f2⟩ := p
    intro t b h
    simp only [denseAfter, Bool.and_eq_true, decide_eq_true_eq] at h
    obtain ⟨hlt, hrest⟩ := h
    rw [debRun_cons, debStep_armed_lt d t2 (t + d) f2 b (by omega)]
    rw [ih t2 (b ++ f2) hrest]
    simp [List.append_assoc]

/-- While every gap is at least the debounce interval, each arrival finds
the previous timer already fired: every fragment gets its own flush,
`d` after its arrival. -/
theorem debRun_sparse (d : Nat) :
    ∀ (rest : List (Nat × List Char)) (t : Nat) (b : List Char),
      sparseAfter d t rest = true →
      debFinish (debRun d ⟨b, some (t + d)⟩ rest) =
        (t + d, b) :: rest.map (fun p => (p.1 + d, p.2)) := by
  intro rest
  induction rest with
  | nil =>
    intro t b _
    simp [debRun_nil, debFinish]
  | cons p rest ih =>
    obtain ⟨t2, f2⟩ := p
    intro t b h
    simp only [sparseAfter, Bool.and_eq_true, decide_eq_true_eq] at h
    obtain ⟨hle, hrest⟩ := h
    rw [debRun_cons, debStep_armed_le d t2 (t + d) f2 b hle]
    simp only [List.singleton_append]
    rw [debFinish_cons, ih t2 f2 hrest]
    simp

/-- C1: each fragment arrival appends to the buffer and supersedes any
pending flush timer (the step function `debStep` embodies this); as a
consequence, a non-empty arrival sequence whose gaps are all below the
debounce interval `d` produces exactly one flush, `d` after the last
arrival, containing the concatenation of all fragments in arrival order,
while a sequence whose gaps are all at least `d` produces one flush per
fragment, each `d` after its own arrival. -/
theorem debounce_coalescing (d : Nat) (arrivals : List (Nat × List Char))
    (h : arrivals ≠ []) :
    (gapsLt d arrivals = true →
      debounceFlushes d arrivals =
        [(lastTime arrivals + d, (arrivals.map Prod.snd).flatten)]) ∧
    (gapsGe d arrivals = true →
      debounceFlushes d arrivals = arrivals.map (fun p => (p.1 + d, p.2))) := by
  cases arrivals with
  | nil => exact absurd rfl h
  | cons p rest =>
    obtain ⟨t, f⟩ := p
    constructor
    · intro hg
      simp only [gapsLt] at hg
      unfold debounceFlushes
      rw [debRun_cons, debStep_none, debRun_dense d rest t ([] ++ f) hg]
      simp only [List.nil_append, List.append_nil]
      unfold debFinish
      simp [lastTime]
    · intro hg
      simp only [gapsGe] at hg
      unfold debounceFlushes
      rw [debRun_cons, debStep_none]
      simp only [List.nil_append, Prod.mk.eta]
      rw [debRun_sparse d rest t f hg]
      simp

theorem debounce_coalescing_witness :
    ([((0 : Nat), ['a']), (1, ['b'])] ≠ ([] : List (Nat × List Char))) ∧
    gapsLt 2 [(0, ['a']), (1, ['b'])] = true ∧
    debounceFlushes 2 [(0, ['a']), (1, ['b'])] = [(3, ['a', 'b'])] ∧
    gapsGe 1 [(0, ['a']), (1, ['b'])] = true ∧
    debounceFlushes 1 [(0, ['a']), (1, ['b'])] = [(1, ['a']), (2, ['b'])] :=
  ⟨by decide, by decide,
    (debounce_coalescing 2 [(0, ['a']), (1, ['b'])] (by decide)).1 (by decide),
    by decide,
    (debounce_coalescing 1 [(0, ['a']), (1, ['b'])] (by decide)).2 (by decide)⟩

/-! ## Query-replacement lemmas -/

/-- The single replacement pass deletes exactly four bytes per counted
(left-to-right, non-overlapping) occurrence. -/
theorem stripQuery_length (l : List Nat) :
    (stripQuery l).length + 4 * countQuery l = l.length := by
  induction l using stripQuery.induct with
  | case1 rest ih =>
    simp [stripQuery, countQuery]
    omega
  | case2 b rest h ih =>
    simp [stripQuery, countQuery, h]
    omega
  | case3 => simp [stripQuery, countQuery]

/-- A chunk containing the query has at least one counted occurrence. -/
theorem countQuery_pos (l : List Nat) (hc : containsQuery l = true) :
    1 ≤ countQuery l := by
  induction l using countQuery.induct with
  | case1 rest ih => simp [countQuery]
  | case2 b rest h ih =>
    simp [containsQuery, h] at hc
    simp [countQuery, h]
    exact ih hc
  | case3 => simp [containsQuery] at hc

/-- C4: for a read chunk equal to exactly the query bytes `ESC [ 6 n`,
the query bytes are fully removed before filtering — nothing reaches the
output buffer and no timer is armed (the state is unchanged) — and
exactly one write of the canned reply `ESC [ 1 ; 1 R` is made back to the
pty master. -/
theorem device_query_intercepted (d now : Nat) (st : ReadState) :
    read_from_pty d st now (ReadResult.data [0x1B, 0x5B, 0x36, 0x6E]) =
      (st, [Effect.writeMaster ANSWER_CURSOR]) := rfl

/-- C9 counterexample: in the chunk `1B 5B 36 1B 5B 36 6E 6E` the single
occurrence of the query is removed, but the surrounding bytes recombine
into a fresh occurrence of the query in the residual chunk — so the
filtered chunk is not query-free. -/
theorem query_residual_counterexample :
    containsQuery [27, 91, 54, 27, 91, 54, 110, 110] = true ∧
    stripQuery [27, 91, 54, 27, 91, 54, 110, 110] = [27, 91, 54, 110] ∧
    containsQuery (stripQuery [27, 91, 54, 27, 91, 54, 110, 110]) = true := by
  decide

/-- C9 (amended): for every read chunk containing at least one occurrence
of the cursor-position query, exactly one reply is written back (one per
chunk, not one per occurrence), and the single replacement pass deletes
exactly the left-to-right non-overlapping occurrences — `4·N` bytes for
the `N ≥ 1` counted occurrences — although bytes surrounding the removed
occurrences may recombine into a query occurrence in the residual chunk. -/
theorem query_reply_once (d now : Nat) (st : ReadState) (bs : List Nat)
    (h : containsQuery bs = true) :
    (read_from_pty d st now (ReadResult.data bs)).2 =
      [Effect.writeMaster ANSWER_CURSOR] ∧
    1 ≤ countQuery bs ∧
    (stripQuery bs).length + 4 * countQuery bs = bs.length := by
  refine ⟨?_, countQuery_pos bs h, stripQuery_length bs⟩
  unfold read_from_pty
  by_cases hc : ansiStrip (decodeUtf8Replace (queryFiltered bs)) = [] <;>
    simp [h, hc]

theorem query_reply_once_witness :
    containsQuery [27, 91, 54, 110, 27, 91, 54, 110] = true ∧
    ((read_from_pty 1 ⟨some 3, [], none⟩ 0
        (ReadResult.data [27, 91, 54, 110, 27, 91, 54, 110])).2 =
      [Effect.writeMaster ANSWER_CURSOR] ∧
     1 ≤ countQuery [27, 91, 54, 110, 27, 91, 54, 110] ∧
     (stripQuery [27, 91, 54, 110, 27, 91, 54, 110]).length +
       4 * countQuery [27, 91, 54, 110, 27, 91, 54, 110] =
       ([27, 91, 54, 110, 27, 91, 54, 110] : List Nat).length) :=
  ⟨by decide, query_reply_once 1 0 ⟨some 3, [], none⟩
    [27, 91, 54, 110, 27, 91, 54, 110] (by decide)⟩

/-- C10: a read chunk whose text after query interception, decoding and
escape-stripping is empty (for example a chunk that is entirely escape
sequences) leaves the reader state unchanged: the output buffer is not
touched and no flush timer is armed or re-armed, so such a chunk never
defers an already-pending flush. -/
theorem empty_clean_no_buffer_touch (d now : Nat) (st : ReadState) (bs : List Nat)
    (h : ansiStrip (decodeUtf8Replace (queryFiltered bs)) = []) :
    (read_from_pty d st now (ReadResult.data bs)).1 = st := by
  unfold read_from_pty
  simp [h]

theorem empty_clean_no_buffer_touch_witness :
    ansiStrip (decodeUtf8Replace (queryFiltered [27, 91, 48, 109])) = [] ∧
    (read_from_pty 2 ⟨some 3, ['x'], some 9⟩ 4
        (ReadResult.data [27, 91, 48, 109])).1 = ⟨some 3, ['x'], some 9⟩ :=
  ⟨by decide, empty_clean_no_buffer_touch 2 4 ⟨some 3, ['x'], some 9⟩
    [27, 91, 48, 109] (by decide)⟩

/-- C8 counterexample: an EOF read performs no session cleanup at all —
the master descriptor, buffer and pending timer all survive untouched (and
no effect is produced), contradicting the claim that EOF triggers session
cleanup. -/
theorem eof_no_cleanup_counterexample :
    (read_from_pty 1 ⟨some 3, ['x'], some 7⟩ 0 ReadResult.eof).1 =
      ⟨some 3, ['x'], some 7⟩ ∧
    (read_from_pty 1 ⟨some 3, ['x'], some 7⟩ 0 ReadResult.eof).1.master_fd ≠ none ∧
    (read_from_pty 1 ⟨some 3, ['x'], some 7⟩ 0 ReadResult.eof).2 = [] := by
  decide

/-- C8 (amended): an empty read from the pty master (child exited) or an
OS error on read is swallowed silently — treated as a normal termination
signal, never surfaced to the user as an error — and the handler simply
returns with no effect; no session cleanup is performed, the dead session
being detected and replaced only on the next inbound message. -/
theorem eof_oserror_silent (d now : Nat) (st : ReadState) :
    read_from_pty d st now ReadResult.eof = (st, []) ∧
    read_from_pty d st now ReadResult.oserror = (st, []) :=
  ⟨rfl, rfl⟩

/-- C5: when the debounce timer fires, the buffer is swapped out (reset
to empty, atomically in this sequential model of the critical section)
and the swapped text trimmed of leading and trailing whitespace; no
message is sent exactly when the trimmed result is empty, and otherwise
precisely the chunks of the trimmed text are sent, each rendered as one
fenced code block, their payloads concatenating back to the trimmed
text. -/
theorem flush_semantics (b : List Char) :
    (flush_output b).1 = [] ∧
    ((flush_output b).2 = [] ↔ pyStrip b = []) ∧
    (flush_output b).2 =
      (chunk_text (pyStrip b) MAX_MESSAGE_CHARS).map
        (fun c => Effect.send (renderChunk c)) ∧
    (chunk_text (pyStrip b) MAX_MESSAGE_CHARS).flatten = pyStrip b := by
  refine ⟨?_, ?_, ?_, chunk_flatten _ (by decide) _⟩
  · unfold flush_output
    by_cases h : pyStrip b = [] <;> simp [h]
  · unfold flush_output
    by_cases h : pyStrip b = []
    · simp [h]
    · simp only [h, if_neg]
      simp [h]
      rw [chunk_text_cons h (by decide : (0 : Nat) < MAX_MESSAGE_CHARS)]
      simp
  · unfold flush_output
    by_cases h : pyStrip b = []
    · simp [h, chunk_text_nil]
    · simp [h]

/-- C6: a message whose sender differs from the allow-listed identity is
dropped with no effect at all: no session created, no process spawned,
nothing written to the pty, no reply sent, and the bridge state is
unchanged. -/
theorem unauthorized_dropped (st : BridgeState) (sender : Nat)
    (text : List Char) (writeOk : Bool) (h : sender ≠ ALLOWED_USER_ID) :
    handle_message st sender text writeOk = (st, []) := by
  unfold handle_message
  simp [h]

theorem unauthorized_dropped_witness :
    ((0 : Nat) ≠ ALLOWED_USER_ID) ∧
    handle_message ⟨none, none, 0⟩ 0 ['h', 'i'] true = (⟨none, none, 0⟩, []) :=
  ⟨by decide, unauthorized_dropped ⟨none, none, 0⟩ 0 ['h', 'i'] true (by decide)⟩

/-- C7: if writing the inbound message to the pty fails with an OS error,
the handler reports it to the user as a visible failure message as its
last action and returns normally (the model is a total function — the
bridge does not crash); and whenever no session exists or the child has
exited, an authorized message first starts a fresh session (reply, then
spawn) before any write, which then targets the fresh descriptor. -/
theorem write_error_and_respawn (st : BridgeState) (text : List Char)
    (writeOk : Bool) :
    (handle_message st ALLOWED_USER_ID text false).2.getLast? =
      some Effect.replyError ∧
    (needRestart st = true →
      handle_message st ALLOWED_USER_ID text writeOk =
        (spawnState st,
          [Effect.reply "⚙️ Starting Codex...", Effect.spawn] ++
            (if writeOk then [Effect.writePty (text ++ [Char.ofNat 10])]
             else [Effect.replyError]))) := by
  constructor
  · unfold handle_message
    by_cases hr : needRestart st = true
    · simp [hr, spawnState]
    · have hr2 : needRestart st = false := by
        simpa using hr
      have hfd : st.master_fd.isSome = true := by
        rcases hmf : st.master_fd with _ | v
        · simp [needRestart, hmf] at hr2
        · rfl
      simp [hr2, hfd]
  · intro hrt
    unfold handle_message
    simp [hrt, spawnState]
    cases writeOk <;> simp

theorem write_error_and_respawn_witness :
    needRestart ⟨none, none, 5⟩ = true ∧
    (handle_message ⟨none, none, 5⟩ ALLOWED_USER_ID ['o', 'k'] false).2.getLast? =
      some Effect.replyError ∧
    handle_message ⟨none, none, 5⟩ ALLOWED_USER_ID ['o', 'k'] true =
      (spawnState ⟨none, none, 5⟩,
        [Effect.reply "⚙️ Starting Codex...", Effect.spawn] ++
          (if true then [Effect.writePty (['o', 'k'] ++ [Char.ofNat 10])]
           else [Effect.replyError])) :=
  ⟨by decide,
    (write_error_and_respawn ⟨none, none, 5⟩ ['o', 'k'] true).1,
    (write_error_and_respawn ⟨none, none, 5⟩ ['o', 'k'] true).2 (by decide)⟩

end Bridge
